import Mathlib

/-!
Shallow embedding of the waste-management repository.

Inference pipeline (src/models/detect_api.py and src/models/detect.py):
the external YOLO model is a black box; what the repository's own code
does with its output is embedded here.  A detection box contributes
`int(box.cls[0])` and `float(box.conf[0])`; confidences are modelled as
rationals.  A Python dict lookup that raises KeyError, and hence the
whole surrounding call, is modelled by `Option` with `none` for the
escape.  The wall clock `datetime.now()` is modelled by an explicit
`now : Nat` parameter, and the file written by `save_snapshot`
(cv2.imwrite) is returned alongside the result.

Dataset pipeline (src/scripts/convert_taco_to_yolo.py): the shuffled
order produced by `random.shuffle` under the fixed seed is taken as an
input list; the split slices, the COCO to YOLO coordinate arithmetic,
the f-string formatting with six decimals, and the per-image loop with
its counters and its skip of missing files are embedded directly.
-/

/-- The two class names appearing as values of CLASS_MAP. -/
inductive WasteLabel where
  | dry
  | wet
deriving DecidableEq

/-- CLASS_MAP = {0: "dry", 1: "wet"} from both detect_api.py and detect.py;
`none` models the KeyError that a Python dict lookup raises on any other key. -/
def CLASS_MAP : Nat → Option WasteLabel
  | 0 => some .dry
  | 1 => some .wet
  | _ => none

/-- One detection box as consumed by the loops: `int(box.cls[0])` and
`float(box.conf[0])`.  YOLO class indices are nonnegative, so `Nat`; the
confidence is modelled as a rational. -/
structure RawDet where
  cls : Nat
  conf : ℚ
deriving DecidableEq

/-- The loop body `waste_types.append(CLASS_MAP[cls_id])` over all boxes,
with `none` when some lookup raises KeyError. -/
def lookupAll : List RawDet → Option (List WasteLabel)
  | [] => some []
  | d :: ds =>
    match CLASS_MAP d.cls with
    | none => none
    | some w => (lookupAll ds).map (fun ws => w :: ws)

/-- Python `max` over a nonempty list: a left fold of binary max started
from the first element. -/
def listMax (c : ℚ) : List ℚ → ℚ
  | [] => c
  | x :: xs => listMax (max c x) xs

/-- Python `list.index(a)`: the index of the first occurrence of `a`
(only ever applied to lists that contain `a`). -/
def indexOfQ (a : ℚ) : List ℚ → Nat
  | [] => 0
  | c :: cs => if c = a then 0 else indexOfQ a cs + 1

/-- Round to the nearest integer with ties to even, the rounding used by
Python's builtin `round`. -/
def roundHalfEven (q : ℚ) : ℤ :=
  if q - ⌊q⌋ < 1/2 then ⌊q⌋
  else if 1/2 < q - ⌊q⌋ then ⌊q⌋ + 1
  else if ⌊q⌋ % 2 = 0 then ⌊q⌋ else ⌊q⌋ + 1

/-- Python `round(x, 3)` on the rational model. -/
def round3 (q : ℚ) : ℚ := (roundHalfEven (q * 1000) : ℚ) / 1000

/-- The dict returned by analyze_frame.  `cls` stands for the "class" key
and `wet_dry` for "wet_dry"; `timestamp` is the clock value the caller's
`datetime.now()` observed. -/
structure FrameOutput where
  cls : Option WasteLabel
  wet_dry : Option WasteLabel
  confidence : Option ℚ
  is_mixed : Bool
  is_violation : Bool
  snapshot_path : Option String
  timestamp : Nat
deriving DecidableEq

/-- The snapshot filename `snapshots/violation_<timestamp>.jpg` produced by
save_snapshot, with the formatted clock value abbreviated to `toString now`. -/
def snapshotName (now : Nat) : String :=
  "snapshots/violation_" ++ toString now ++ ".jpg"

/-- analyze_frame from src/models/detect_api.py, applied to the detections
the external model returned for the frame.  The second component of the
result is the list of files written during the call (save_snapshot performs
one cv2.imwrite per violation); `none` models the KeyError escape of
`CLASS_MAP[cls_id]`. -/
def analyze_frame (now : Nat) (dets : List RawDet) (correct_bin : WasteLabel) :
    Option (FrameOutput × List String) :=
  match dets with
  | [] => some ({ cls := none, wet_dry := none, confidence := none,
                  is_mixed := false, is_violation := false,
                  snapshot_path := none, timestamp := now }, [])
  | d :: ds =>
    match lookupAll (d :: ds) with
    | none => none
    | some waste_types =>
      let confidences := (d :: ds).map RawDet.conf
      let is_mixed := decide (1 < waste_types.dedup.length)
      let top_conf := listMax d.conf (ds.map RawDet.conf)
      let top_index := indexOfQ top_conf confidences
      let top_type := waste_types.getD top_index .dry
      let is_violation := decide (top_type ≠ correct_bin)
      some ({ cls := some top_type, wet_dry := some top_type,
              confidence := some (round3 top_conf),
              is_mixed := is_mixed, is_violation := is_violation,
              snapshot_path := if is_violation then some (snapshotName now) else none,
              timestamp := now },
            if is_violation then [snapshotName now] else [])

/-- The violation flag computed by detect_and_draw in src/models/detect.py:
starting from False, each box with a class different from BIN_TYPE sets it.
The drawing on the frame is an external cv2 concern and is not modelled;
`none` models the KeyError escape of `CLASS_MAP[cls_id]`. -/
def detect_and_draw (dets : List RawDet) (bin_type : WasteLabel) : Option Bool :=
  (lookupAll dets).map (fun ws => ws.any (fun w => decide (w ≠ bin_type)))

/-- train_ids = image_ids[: int(0.8*n)] over the shuffled order `s`.
`int(0.8*n)` agrees with the natural-number division `8*n/10` (see the
floor bridge in the split allocator theorem). -/
def train_ids (s : List Nat) : List Nat :=
  s.take (8 * s.length / 10)

/-- val_ids = image_ids[int(0.8*n) : int(0.9*n)] over the shuffled order. -/
def val_ids (s : List Nat) : List Nat :=
  (s.drop (8 * s.length / 10)).take (9 * s.length / 10 - 8 * s.length / 10)

/-- test_ids = image_ids[int(0.9*n) :] over the shuffled order. -/
def test_ids (s : List Nat) : List Nat :=
  s.drop (9 * s.length / 10)

/-- One entry of data["annotations"]: category_id and the COCO bbox
`[x, y, width, height]` in absolute pixels, top-left origin. -/
structure AnnRec where
  category_id : Nat
  x : ℚ
  y : ℚ
  bw : ℚ
  bh : ℚ
deriving DecidableEq

/-- Zero-pad the decimal digits of `n` on the left to width six. -/
def pad6 (n : Nat) : String :=
  String.mk (List.replicate (6 - (toString n).length) '0') ++ toString n

/-- The f-string `.6f` conversion for a nonnegative rational: six decimal
digits, rounding half to even as Python does. -/
def fmt6 (q : ℚ) : String :=
  let n := (roundHalfEven (q * 1000000)).toNat
  toString (n / 1000000) ++ "." ++ pad6 (n % 1000000)

/-- The four normalized values computed per annotation record. -/
structure YoloNums where
  xc : ℚ
  yc : ℚ
  wn : ℚ
  hn : ℚ
deriving DecidableEq

/-- `xc = (x + bw/2) / w`, `yc = (y + bh/2) / h`, `wn = bw / w`,
`hn = bh / h` from the conversion loop. -/
def yoloNums (w h : ℚ) (a : AnnRec) : YoloNums :=
  { xc := (a.x + a.bw / 2) / w
    yc := (a.y + a.bh / 2) / h
    wn := a.bw / w
    hn := a.bh / h }

/-- One label line, the f-string with the category id and the four
normalized values at six decimal digits each. -/
def yolo_line (w h : ℚ) (a : AnnRec) : String :=
  let ns := yoloNums w h a
  toString a.category_id ++ " " ++ fmt6 ns.xc ++ " " ++ fmt6 ns.yc ++ " "
    ++ fmt6 ns.wn ++ " " ++ fmt6 ns.hn

/-- One entry of data["images"], with `src_exists` standing for the
`src.exists()` check on disk and width and height already resolved
(the PIL fallback is an external concern). -/
structure ImgRec where
  id : Nat
  file_name : String
  src_exists : Bool
  width : ℚ
  height : ℚ
deriving DecidableEq

/-- The mutable state threaded through the conversion loop: the three
counters, the image files copied, the label files written with their
lines, and the lines printed to the console. -/
structure ConvState where
  copied : Nat
  labeled : Nat
  boxes : Nat
  copied_files : List String
  label_files : List (String × List String)
  log_lines : List String
deriving DecidableEq

/-- The split chosen for an image id: train if it is in train_ids, else
val if in val_ids, else test. -/
def split_of (tr vl : List Nat) (i : Nat) : String :=
  if i ∈ tr then "train" else if i ∈ vl then "val" else "test"

/-- One iteration of the conversion loop over `images`.  A missing source
file prints "Missing image: ..." and skips the rest of the body; otherwise
the image is copied into its split, the YOLO label lines are built from
the grouped annotation records, the label file is written (also when the
line list is empty), and the counters advance. -/
def process_image (anns : Nat → List AnnRec) (tr vl : List Nat)
    (st : ConvState) (img : ImgRec) : ConvState :=
  if img.src_exists = false then
    { st with log_lines := st.log_lines ++ ["Missing image: " ++ img.file_name] }
  else
    let split := split_of tr vl img.id
    let lines := (anns img.id).map (yolo_line img.width img.height)
    { copied := st.copied + 1
      labeled := st.labeled + (if lines.isEmpty then 0 else 1)
      boxes := st.boxes + lines.length
      copied_files := st.copied_files ++ [split ++ "/images/" ++ img.file_name]
      label_files := st.label_files ++
        [(split ++ "/labels/" ++ img.file_name ++ ".txt", lines)]
      log_lines := st.log_lines }

/-- The whole conversion loop, from zeroed counters. -/
def run_conversion (anns : Nat → List AnnRec) (tr vl : List Nat)
    (imgs : List ImgRec) : ConvState :=
  imgs.foldl (process_image anns tr vl) ⟨0, 0, 0, [], [], []⟩

/-- The three counters printed in the end-of-run summary block
("Conversion complete!"). -/
def summary (st : ConvState) : List (String × Nat) :=
  [("Images copied", st.copied), ("Images with labels", st.labeled),
   ("Total bounding boxes", st.boxes)]

theorem lookupAll_length : ∀ {ds : List RawDet} {ws : List WasteLabel},
    lookupAll ds = some ws → ws.length = ds.length := by
  intro ds
  induction ds with
  | nil =>
    intro ws h
    simp only [lookupAll, Option.some.injEq] at h
    simp [← h]
  | cons d ds ih =>
    intro ws h
    simp only [lookupAll] at h
    cases hc : CLASS_MAP d.cls with
    | none => rw [hc] at h; exact absurd h (by simp)
    | some w =>
      rw [hc] at h
      cases hl : lookupAll ds with
      | none => rw [hl] at h; exact absurd h (by simp)
      | some ws0 =>
        rw [hl] at h
        simp only [Option.map_some', Option.some.injEq] at h
        subst h
        simp [ih hl]

theorem lookupAll_getD : ∀ {ds : List RawDet} {ws : List WasteLabel},
    lookupAll ds = some ws → ∀ i, (h : i < ds.length) →
      CLASS_MAP ds[i].cls = some (ws.getD i .dry) := by
  intro ds
  induction ds with
  | nil => intro ws _ i h; exact absurd h (by simp)
  | cons d ds ih =>
    intro ws h i hi
    simp only [lookupAll] at h
    cases hc : CLASS_MAP d.cls with
    | none => rw [hc] at h; exact absurd h (by simp)
    | some w =>
      rw [hc] at h
      cases hl : lookupAll ds with
      | none => rw [hl] at h; exact absurd h (by simp)
      | some ws0 =>
        rw [hl] at h
        simp only [Option.map_some', Option.some.injEq] at h
        subst h
        cases i with
        | zero => simpa [List.getD_cons_zero] using hc
        | succ i =>
          have hi' : i < ds.length := by simpa using hi
          simpa [List.getD_cons_succ] using ih hl i hi'

theorem lookupAll_filterMap : ∀ {ds : List RawDet} {ws : List WasteLabel},
    lookupAll ds = some ws → ds.filterMap (fun d => CLASS_MAP d.cls) = ws := by
  intro ds
  induction ds with
  | nil =>
    intro ws h
    simp only [lookupAll, Option.some.injEq] at h
    simp [← h]
  | cons d ds ih =>
    intro ws h
    simp only [lookupAll] at h
    cases hc : CLASS_MAP d.cls with
    | none => rw [hc] at h; exact absurd h (by simp)
    | some w =>
      rw [hc] at h
      cases hl : lookupAll ds with
      | none => rw [hl] at h; exact absurd h (by simp)
      | some ws0 =>
        rw [hl] at h
        simp only [Option.map_some', Option.some.injEq] at h
        subst h
        simp [List.filterMap_cons, hc, ih hl]

theorem lookupAll_isSome : ∀ {ds : List RawDet},
    (∀ d ∈ ds, d.cls = 0 ∨ d.cls = 1) → ∃ ws, lookupAll ds = some ws := by
  intro ds
  induction ds with
  | nil => intro _; exact ⟨[], rfl⟩
  | cons d ds ih =>
    intro hv
    obtain ⟨ws0, hws0⟩ := ih (fun e he => hv e (List.mem_cons_of_mem d he))
    have hd := hv d (List.mem_cons_self d ds)
    rcases hd with h0 | h1
    · exact ⟨.dry :: ws0, by simp [lookupAll, h0, CLASS_MAP, hws0]⟩
    · exact ⟨.wet :: ws0, by simp [lookupAll, h1, CLASS_MAP, hws0]⟩

theorem lookupAll_none : ∀ {ds : List RawDet} (d : RawDet), d ∈ ds →
    CLASS_MAP d.cls = none → lookupAll ds = none := by
  intro ds
  induction ds with
  | nil => intro d hd; exact absurd hd (by simp)
  | cons e ds ih =>
    intro d hd hnone
    rcases List.mem_cons.mp hd with h | h
    · subst h; simp [lookupAll, hnone]
    · simp only [lookupAll]
      cases hc : CLASS_MAP e.cls with
      | none => rfl
      | some w => simp [ih d h hnone]

theorem le_listMax (c : ℚ) (xs : List ℚ) : c ≤ listMax c xs := by
  induction xs generalizing c with
  | nil => simp [listMax]
  | cons x xs ih =>
    rw [listMax]
    exact le_trans (le_max_left c x) (ih (max c x))

theorem le_listMax_of_mem : ∀ (xs : List ℚ) (c a : ℚ), a ∈ xs →
    a ≤ listMax c xs := by
  intro xs
  induction xs with
  | nil => intro c a h; exact absurd h (by simp)
  | cons x xs ih =>
    intro c a h
    rw [listMax]
    rcases List.mem_cons.mp h with h1 | h2
    · subst h1
      exact le_trans (le_max_right c a) (le_listMax _ _)
    · exact ih _ a h2

theorem listMax_mem_or (c : ℚ) (xs : List ℚ) :
    listMax c xs = c ∨ listMax c xs ∈ xs := by
  induction xs generalizing c with
  | nil => left; rfl
  | cons x xs ih =>
    rw [listMax]
    rcases ih (max c x) with h | h
    · rcases max_choice c x with hc | hc
      · left; rw [h, hc]
      · right; rw [h, hc]; exact List.mem_cons_self x xs
    · right; exact List.mem_cons_of_mem x h

theorem indexOfQ_eq {a : ℚ} : ∀ {cs : List ℚ} {i : Nat}, (hi : i < cs.length) →
    cs[i] = a → (∀ j, (hj : j < cs.length) → j < i → cs[j] ≠ a) →
    indexOfQ a cs = i := by
  intro cs
  induction cs with
  | nil => intro i hi; exact absurd hi (by simp)
  | cons c cs ih =>
    intro i hi ha hfirst
    cases i with
    | zero =>
      simp only [List.getElem_cons_zero] at ha
      simp [indexOfQ, ha]
    | succ i =>
      have hc : c ≠ a := by
        have := hfirst 0 (by simp) (Nat.succ_pos i)
        simpa using this
      rw [indexOfQ, if_neg hc]
      have hrec : indexOfQ a cs = i := by
        apply ih (by simpa using hi)
        · simpa using ha
        · intro j hj hji
          have := hfirst (j + 1) (by simpa using Nat.succ_lt_succ hj)
            (Nat.succ_lt_succ hji)
          simpa using this
      omega

/-- The dominant-detection core of analyze_frame: whenever detection `i`
carries the maximum confidence and every earlier detection carries a
strictly different (hence smaller) confidence, the returned class, wet_dry
and confidence keys come from detection `i`, and is_violation holds exactly
when its class differs from the expected bin. -/
theorem analyze_frame_dominant (now : Nat) (dets : List RawDet)
    (bin : WasteLabel) (out : FrameOutput) (fs : List String) (i : Nat)
    (hi : i < dets.length)
    (hres : analyze_frame now dets bin = some (out, fs))
    (hmax : ∀ j, (hj : j < dets.length) → dets[j].conf ≤ dets[i].conf)
    (hfirst : ∀ j, (hj : j < dets.length) → j < i → dets[j].conf ≠ dets[i].conf) :
    out.cls = CLASS_MAP dets[i].cls ∧
    out.wet_dry = CLASS_MAP dets[i].cls ∧
    out.confidence = some (round3 dets[i].conf) ∧
    (out.is_violation = true ↔ CLASS_MAP dets[i].cls ≠ some bin) := by
  cases dets with
  | nil => exact absurd hi (by simp)
  | cons d ds =>
    cases hl : lookupAll (d :: ds) with
    | none => rw [analyze_frame, hl] at hres; exact absurd hres (by simp)
    | some ws =>
      rw [analyze_frame, hl] at hres
      simp only [Option.some.injEq, Prod.mk.injEq] at hres
      obtain ⟨hout, _⟩ := hres
      have hcs : (d :: ds).map RawDet.conf = d.conf :: ds.map RawDet.conf :=
        List.map_cons _ _ _
      have hlen : ((d :: ds).map RawDet.conf).length = (d :: ds).length :=
        List.length_map _ _
      have hub : ∀ x ∈ (d :: ds).map RawDet.conf,
          x ≤ listMax d.conf (ds.map RawDet.conf) := by
        intro x hx
        rw [hcs] at hx
        rcases List.mem_cons.mp hx with h1 | h2
        · subst h1; exact le_listMax _ _
        · exact le_listMax_of_mem _ _ _ h2
      have hmem : listMax d.conf (ds.map RawDet.conf) ∈
          (d :: ds).map RawDet.conf := by
        rw [hcs]
        rcases listMax_mem_or d.conf (ds.map RawDet.conf) with h | h
        · rw [h]; exact List.mem_cons_self _ _
        · exact List.mem_cons_of_mem _ h
      have hblen : ∀ j, j < (d :: ds).length →
          j < ((d :: ds).map RawDet.conf).length := by
        intro j hj
        rw [hlen]
        exact hj
      have hgetcs : ∀ j, (hj : j < (d :: ds).length) →
          (hj2 : j < ((d :: ds).map RawDet.conf).length) →
          ((d :: ds).map RawDet.conf)[j] = (d :: ds)[j].conf := by
        intro j hj hj2
        simp only [List.getElem_map]
      have htop : listMax d.conf (ds.map RawDet.conf) = (d :: ds)[i].conf := by
        apply le_antisymm
        · obtain ⟨k, hk, hkeq⟩ := List.mem_iff_getElem.mp hmem
          have hk' : k < (d :: ds).length := by rw [← hlen]; exact hk
          rw [← hkeq, hgetcs k hk' hk]
          exact hmax k hk'
        · have : (d :: ds)[i].conf ∈ (d :: ds).map RawDet.conf := by
            rw [← hgetcs i hi (hblen i hi)]
            exact List.getElem_mem _
          exact hub _ this
      have hidx : indexOfQ (listMax d.conf (ds.map RawDet.conf))
          ((d :: ds).map RawDet.conf) = i := by
        apply indexOfQ_eq (hblen i hi)
        · rw [hgetcs i hi (hblen i hi), htop]
        · intro j hj hji
          have hj' : j < (d :: ds).length := by rw [← hlen]; exact hj
          rw [hgetcs j hj' hj, htop]
          exact hfirst j hj' hji
      have htype : CLASS_MAP (d :: ds)[i].cls = some (ws.getD i .dry) :=
        lookupAll_getD hl i hi
      subst hout
      refine ⟨?_, ?_, ?_, ?_⟩
      · simp only [hidx, htype]
      · simp only [hidx, htype]
      · simp only [hidx, htop]
      · simp only [hidx, htype, decide_eq_true_eq, ne_eq, Option.some.injEq]

/-- C6: for the empty detection sequence and every expected bin, the result
has no dominant class, no confidence, is_violation = false, is_mixed = false,
no snapshot, and no file is written. -/
theorem c6_empty_sequence (now : Nat) (bin : WasteLabel) :
    analyze_frame now [] bin =
      some ({ cls := none, wet_dry := none, confidence := none,
              is_mixed := false, is_violation := false,
              snapshot_path := none, timestamp := now }, []) := rfl

theorem detect_any (dets : List RawDet) (bin : WasteLabel)
    (ws : List WasteLabel) (hl : lookupAll dets = some ws) :
    (detect_and_draw dets bin = some true ↔
      ∃ j, ∃ hj : j < dets.length, CLASS_MAP dets[j].cls ≠ some bin) := by
  have hlen := lookupAll_length hl
  simp only [detect_and_draw, hl, Option.map_some', Option.some.injEq]
  rw [List.any_eq_true]
  constructor
  · rintro ⟨w, hw, hwb⟩
    obtain ⟨j, hj, hje⟩ := List.mem_iff_getElem.mp hw
    refine ⟨j, by omega, ?_⟩
    rw [lookupAll_getD hl j (by omega)]
    have hgd : ws.getD j .dry = w := by
      rw [List.getD_eq_getElem ws .dry hj, hje]
    rw [hgd]
    simpa using hwb
  · rintro ⟨j, hj, hne⟩
    have hjw : j < ws.length := by omega
    refine ⟨ws[j], List.getElem_mem _, ?_⟩
    have hg := lookupAll_getD hl j hj
    rw [List.getD_eq_getElem ws .dry hjw] at hg
    rw [hg] at hne
    simpa using hne

/-- C1 (amended): on a successful analysis of a non-empty detection
sequence whose dominant detection is at index `i` (maximum confidence,
strictly larger than every earlier one), analyze_frame reports a violation
exactly when the dominant class differs from the expected bin; but the
violation flag of detect_and_draw is set exactly when ANY detection's
class differs from the bin, so a frame whose dominant class matches the
bin can still be flagged by detect_and_draw. -/
theorem c1_amended_violation_semantics (now : Nat) (dets : List RawDet)
    (bin : WasteLabel) (out : FrameOutput) (fs : List String) (i : Nat)
    (hi : i < dets.length)
    (hres : analyze_frame now dets bin = some (out, fs))
    (hmax : ∀ j, (hj : j < dets.length) → dets[j].conf ≤ dets[i].conf)
    (hfirst : ∀ j, (hj : j < dets.length) → j < i → dets[j].conf ≠ dets[i].conf) :
    (out.is_violation = true ↔ CLASS_MAP dets[i].cls ≠ some bin) ∧
    (detect_and_draw dets bin = some true ↔
      ∃ j, ∃ hj : j < dets.length, CLASS_MAP dets[j].cls ≠ some bin) := by
  obtain ⟨-, -, -, hviol⟩ :=
    analyze_frame_dominant now dets bin out fs i hi hres hmax hfirst
  refine ⟨hviol, ?_⟩
  cases dets with
  | nil => exact absurd hi (by simp)
  | cons d ds =>
    cases hl : lookupAll (d :: ds) with
    | none => rw [analyze_frame, hl] at hres; exact absurd hres (by simp)
    | some ws => exact detect_any _ _ _ hl

/-- C1 (counterexample): with expected bin dry and detections
[(dry, 0.9), (wet, 0.6)], the dominant class dry matches the bin and
analyze_frame reports no violation, yet detect_and_draw flags the frame
because the lower-confidence detection mismatches. -/
theorem c1_counterexample :
    detect_and_draw [⟨0, 9/10⟩, ⟨1, 6/10⟩] .dry = some true ∧
    analyze_frame 0 [⟨0, 9/10⟩, ⟨1, 6/10⟩] .dry =
      some ({ cls := some .dry, wet_dry := some .dry,
              confidence := some ((9 : ℚ)/10),
              is_mixed := true, is_violation := false,
              snapshot_path := none, timestamp := 0 }, []) ∧
    (6 : ℚ)/10 < 9/10 := by
  refine ⟨by rfl, ?_, by norm_num⟩
  norm_num [analyze_frame, lookupAll, CLASS_MAP, listMax, indexOfQ, round3,
    roundHalfEven, max_def, List.dedup] <;> decide

theorem c1_witness :
    analyze_frame 0 [⟨0, (9 : ℚ)/10⟩, ⟨1, (6 : ℚ)/10⟩] WasteLabel.wet =
      some ({ cls := some .dry, wet_dry := some .dry,
              confidence := some ((9 : ℚ)/10),
              is_mixed := true, is_violation := true,
              snapshot_path := some "snapshots/violation_0.jpg",
              timestamp := 0 }, ["snapshots/violation_0.jpg"]) ∧
    (({ cls := some .dry, wet_dry := some .dry,
        confidence := some ((9 : ℚ)/10),
        is_mixed := true, is_violation := true,
        snapshot_path := some "snapshots/violation_0.jpg",
        timestamp := 0 } : FrameOutput).is_violation = true ↔
      CLASS_MAP 0 ≠ some WasteLabel.wet) := by
  have hres : analyze_frame 0 [⟨0, (9 : ℚ)/10⟩, ⟨1, (6 : ℚ)/10⟩] WasteLabel.wet =
      some ({ cls := some .dry, wet_dry := some .dry,
              confidence := some ((9 : ℚ)/10),
              is_mixed := true, is_violation := true,
              snapshot_path := some "snapshots/violation_0.jpg",
              timestamp := 0 }, ["snapshots/violation_0.jpg"]) := by
    norm_num [analyze_frame, lookupAll, CLASS_MAP, listMax, indexOfQ, round3,
      roundHalfEven, max_def, List.dedup, snapshotName] <;> decide
  have h := c1_amended_violation_semantics 0
      [⟨0, (9 : ℚ)/10⟩, ⟨1, (6 : ℚ)/10⟩] WasteLabel.wet _ _ 0 (by norm_num) hres
      (by
        intro j hj
        simp only [List.length_cons, List.length_nil] at hj
        interval_cases j <;>
          norm_num [List.getElem_cons_zero, List.getElem_cons_succ])
      (by intro j hj hji; exact absurd hji (Nat.not_lt_zero j))
  exact ⟨hres, h.1⟩

/-- C2 (amended): on a successful analysis whose dominant detection is at
index `i` (maximum confidence, earliest on ties), the reported class and
wet_dry keys are the label of detection `i`, and the reported confidence
is that detection's confidence rounded to three decimal digits. -/
theorem c2_amended_dominant_selection (now : Nat) (dets : List RawDet)
    (bin : WasteLabel) (out : FrameOutput) (fs : List String) (i : Nat)
    (hi : i < dets.length)
    (hres : analyze_frame now dets bin = some (out, fs))
    (hmax : ∀ j, (hj : j < dets.length) → dets[j].conf ≤ dets[i].conf)
    (hfirst : ∀ j, (hj : j < dets.length) → j < i → dets[j].conf ≠ dets[i].conf) :
    out.cls = CLASS_MAP dets[i].cls ∧
    out.wet_dry = CLASS_MAP dets[i].cls ∧
    out.confidence = some (round3 dets[i].conf) := by
  obtain ⟨h1, h2, h3, -⟩ :=
    analyze_frame_dominant now dets bin out fs i hi hres hmax hfirst
  exact ⟨h1, h2, h3⟩

/-- C2 (counterexample): a single detection with confidence 1/16 = 0.0625
is reported with confidence 0.062 = 31/500 (round half to even at three
decimals), which differs from the detection's own confidence value. -/
theorem c2_counterexample :
    analyze_frame 0 [⟨0, (1 : ℚ)/16⟩] .dry =
      some ({ cls := some .dry, wet_dry := some .dry,
              confidence := some ((31 : ℚ)/500),
              is_mixed := false, is_violation := false,
              snapshot_path := none, timestamp := 0 }, []) ∧
    (31 : ℚ)/500 ≠ (1 : ℚ)/16 := by
  refine ⟨?_, by norm_num⟩
  norm_num [analyze_frame, lookupAll, CLASS_MAP, listMax, indexOfQ, round3,
    roundHalfEven, max_def, List.dedup]

theorem c2_witness :
    analyze_frame 0 [⟨1, (1 : ℚ)/2⟩, ⟨0, (1 : ℚ)/2⟩] WasteLabel.dry =
      some ({ cls := some .wet, wet_dry := some .wet,
              confidence := some ((1 : ℚ)/2),
              is_mixed := true, is_violation := true,
              snapshot_path := some "snapshots/violation_0.jpg",
              timestamp := 0 }, ["snapshots/violation_0.jpg"]) ∧
    ({ cls := some .wet, wet_dry := some .wet,
       confidence := some ((1 : ℚ)/2),
       is_mixed := true, is_violation := true,
       snapshot_path := some "snapshots/violation_0.jpg",
       timestamp := 0 } : FrameOutput).cls = CLASS_MAP 1 := by
  have hres : analyze_frame 0 [⟨1, (1 : ℚ)/2⟩, ⟨0, (1 : ℚ)/2⟩] WasteLabel.dry =
      some ({ cls := some .wet, wet_dry := some .wet,
              confidence := some ((1 : ℚ)/2),
              is_mixed := true, is_violation := true,
              snapshot_path := some "snapshots/violation_0.jpg",
              timestamp := 0 }, ["snapshots/violation_0.jpg"]) := by
    norm_num [analyze_frame, lookupAll, CLASS_MAP, listMax, indexOfQ, round3,
      roundHalfEven, max_def, List.dedup, snapshotName] <;> decide
  have h := c2_amended_dominant_selection 0
      [⟨1, (1 : ℚ)/2⟩, ⟨0, (1 : ℚ)/2⟩] WasteLabel.dry _ _ 0 (by norm_num) hres
      (by
        intro j hj
        simp only [List.length_cons, List.length_nil] at hj
        interval_cases j <;>
          norm_num [List.getElem_cons_zero, List.getElem_cons_succ])
      (by intro j hj hji; exact absurd hji (Nat.not_lt_zero j))
  exact ⟨hres, h.1⟩

/-- C5: on every successful analysis (both the empty-sequence early return
and the general path), is_mixed holds exactly when the detections carry
more than one distinct class label. -/
theorem c5_is_mixed (now : Nat) (dets : List RawDet) (bin : WasteLabel)
    (out : FrameOutput) (fs : List String)
    (hres : analyze_frame now dets bin = some (out, fs)) :
    (out.is_mixed = true ↔
      1 < (dets.filterMap (fun d => CLASS_MAP d.cls)).toFinset.card) := by
  cases dets with
  | nil =>
    rw [analyze_frame] at hres
    simp only [Option.some.injEq, Prod.mk.injEq] at hres
    obtain ⟨hout, -⟩ := hres
    subst hout
    simp
  | cons d ds =>
    cases hl : lookupAll (d :: ds) with
    | none => rw [analyze_frame, hl] at hres; exact absurd hres (by simp)
    | some ws =>
      rw [analyze_frame, hl] at hres
      simp only [Option.some.injEq, Prod.mk.injEq] at hres
      obtain ⟨hout, -⟩ := hres
      subst hout
      rw [lookupAll_filterMap hl]
      simp [List.card_toFinset]

theorem c5_witness :
    ({ cls := some WasteLabel.dry, wet_dry := some WasteLabel.dry,
       confidence := some ((3 : ℚ)/4), is_mixed := true, is_violation := false,
       snapshot_path := none, timestamp := 0 } : FrameOutput).is_mixed = true ↔
      1 < (([⟨0, (3 : ℚ)/4⟩, ⟨1, (1 : ℚ)/4⟩] : List RawDet).filterMap
        (fun d => CLASS_MAP d.cls)).toFinset.card :=
  c5_is_mixed 0 [⟨0, (3 : ℚ)/4⟩, ⟨1, (1 : ℚ)/4⟩] .dry _ []
    (by
      norm_num [analyze_frame, lookupAll, CLASS_MAP, listMax, indexOfQ, round3,
        roundHalfEven, max_def, List.dedup] <;> decide)

theorem snapshot_iff_violation (now : Nat) (dets : List RawDet)
    (bin : WasteLabel) (out : FrameOutput) (fs : List String)
    (hres : analyze_frame now dets bin = some (out, fs)) :
    fs ≠ [] ↔ out.is_violation = true := by
  cases dets with
  | nil =>
    rw [analyze_frame] at hres
    simp only [Option.some.injEq, Prod.mk.injEq] at hres
    obtain ⟨hout, hfs⟩ := hres
    subst hout
    simp [← hfs]
  | cons d ds =>
    cases hl : lookupAll (d :: ds) with
    | none => rw [analyze_frame, hl] at hres; exact absurd hres (by simp)
    | some ws =>
      rw [analyze_frame, hl] at hres
      simp only [Option.some.injEq, Prod.mk.injEq] at hres
      obtain ⟨hout, hfs⟩ := hres
      subst hout
      rw [← hfs]
      split
      · simp_all
      · simp_all

/-- C7 (amended): the classification keys (class, wet_dry, confidence,
is_mixed, is_violation) depend only on the detections and the expected bin,
not on the clock; but classification is not free of side effects: exactly
when analyze_frame reports a violation it also writes a snapshot file, and
the full returned dict additionally embeds the clock value. -/
theorem c7_amended_purity :
    (∀ t1 t2 : Nat, ∀ dets : List RawDet, ∀ bin : WasteLabel,
      (analyze_frame t1 dets bin).map
          (fun r => (r.1.cls, r.1.wet_dry, r.1.confidence, r.1.is_mixed,
            r.1.is_violation)) =
        (analyze_frame t2 dets bin).map
          (fun r => (r.1.cls, r.1.wet_dry, r.1.confidence, r.1.is_mixed,
            r.1.is_violation))) ∧
    (∀ t : Nat, ∀ dets : List RawDet, ∀ bin : WasteLabel,
      ∀ out : FrameOutput, ∀ fs : List String,
      analyze_frame t dets bin = some (out, fs) →
      (fs ≠ [] ↔ out.is_violation = true)) := by
  constructor
  · intro t1 t2 dets bin
    cases dets with
    | nil => rfl
    | cons d ds =>
      cases hl : lookupAll (d :: ds) with
      | none => simp only [analyze_frame, hl]
      | some ws => simp only [analyze_frame, hl, Option.map_some']
  · intro t dets bin out fs hres
    exact snapshot_iff_violation t dets bin out fs hres

/-- C7 (counterexample): on the same violating input, two calls at clock
values 0 and 1 return different dicts (the timestamp and snapshot path
differ), and the call at clock 0 writes the file
snapshots/violation_0.jpg: classification is neither deterministic in its
full output nor free of file effects. -/
theorem c7_counterexample :
    analyze_frame 0 [⟨1, (9 : ℚ)/10⟩] .dry ≠
      analyze_frame 1 [⟨1, (9 : ℚ)/10⟩] .dry ∧
    analyze_frame 0 [⟨1, (9 : ℚ)/10⟩] .dry =
      some ({ cls := some .wet, wet_dry := some .wet,
              confidence := some ((9 : ℚ)/10),
              is_mixed := false, is_violation := true,
              snapshot_path := some "snapshots/violation_0.jpg",
              timestamp := 0 }, ["snapshots/violation_0.jpg"]) := by
  have h0 : analyze_frame 0 [⟨1, (9 : ℚ)/10⟩] .dry =
      some ({ cls := some .wet, wet_dry := some .wet,
              confidence := some ((9 : ℚ)/10),
              is_mixed := false, is_violation := true,
              snapshot_path := some "snapshots/violation_0.jpg",
              timestamp := 0 }, ["snapshots/violation_0.jpg"]) := by
    norm_num [analyze_frame, lookupAll, CLASS_MAP, listMax, indexOfQ, round3,
      roundHalfEven, max_def, List.dedup, snapshotName] <;> decide
  have h1 : analyze_frame 1 [⟨1, (9 : ℚ)/10⟩] .dry =
      some ({ cls := some .wet, wet_dry := some .wet,
              confidence := some ((9 : ℚ)/10),
              is_mixed := false, is_violation := true,
              snapshot_path := some "snapshots/violation_1.jpg",
              timestamp := 1 }, ["snapshots/violation_1.jpg"]) := by
    norm_num [analyze_frame, lookupAll, CLASS_MAP, listMax, indexOfQ, round3,
      roundHalfEven, max_def, List.dedup, snapshotName] <;> decide
  refine ⟨?_, h0⟩
  rw [h0, h1]
  simp

theorem c7_witness :
    ["snapshots/violation_0.jpg"] ≠ ([] : List String) ↔
      ({ cls := some WasteLabel.wet, wet_dry := some WasteLabel.wet,
         confidence := some ((9 : ℚ)/10),
         is_mixed := false, is_violation := true,
         snapshot_path := some "snapshots/violation_0.jpg",
         timestamp := 0 } : FrameOutput).is_violation = true :=
  c7_amended_purity.2 0 [⟨1, (9 : ℚ)/10⟩] .dry _ _
    (by
      norm_num [analyze_frame, lookupAll, CLASS_MAP, listMax, indexOfQ, round3,
        roundHalfEven, max_def, List.dedup, snapshotName] <;> decide)

/-- C8 (counterexample): a detection with confidence 1.5, outside [0,1],
is processed without any error: analyze_frame returns an ordinary dict
(and no InvalidInput failure exists anywhere in the function). -/
theorem c8_counterexample :
    analyze_frame 0 [⟨0, (3 : ℚ)/2⟩] .dry =
      some ({ cls := some .dry, wet_dry := some .dry,
              confidence := some ((3 : ℚ)/2),
              is_mixed := false, is_violation := false,
              snapshot_path := none, timestamp := 0 }, []) ∧
    (1 : ℚ) < (3 : ℚ)/2 := by
  refine ⟨?_, by norm_num⟩
  norm_num [analyze_frame, lookupAll, CLASS_MAP, listMax, indexOfQ, round3,
    roundHalfEven, max_def, List.dedup]

/-- C8 (amended): analyze_frame performs no confidence-range validation:
it succeeds on every detection sequence whose class ids are in {0, 1},
whatever the confidence values; the only failure mode of the function is
the class-id KeyError. -/
theorem c8_amended_no_validation (now : Nat) (dets : List RawDet)
    (bin : WasteLabel) (hcls : ∀ d ∈ dets, d.cls = 0 ∨ d.cls = 1) :
    (analyze_frame now dets bin).isSome = true := by
  cases dets with
  | nil => rfl
  | cons d ds =>
    obtain ⟨ws, hws⟩ := lookupAll_isSome hcls
    rw [analyze_frame, hws]
    rfl

theorem c8_witness :
    (analyze_frame 0 [⟨0, (3 : ℚ)/2⟩] WasteLabel.dry).isSome = true :=
  c8_amended_no_validation 0 _ _
    (by
      intro d hd
      simp only [List.mem_singleton] at hd
      subst hd
      left
      rfl)

/-- C10: the class-id-to-label lookup is total exactly on {0, 1}, and any
detection sequence containing a class id outside that set makes both
analyze_frame and detect_and_draw raise (KeyError) instead of returning a
result. -/
theorem c10_class_map_partial :
    (∀ c : Nat, CLASS_MAP c = none ↔ (c ≠ 0 ∧ c ≠ 1)) ∧
    (∀ now : Nat, ∀ dets : List RawDet, ∀ bin : WasteLabel,
      (∃ d ∈ dets, d.cls ≠ 0 ∧ d.cls ≠ 1) →
      analyze_frame now dets bin = none ∧ detect_and_draw dets bin = none) := by
  have hmap : ∀ c : Nat, CLASS_MAP c = none ↔ (c ≠ 0 ∧ c ≠ 1) := by
    intro c
    match c with
    | 0 => simp [CLASS_MAP]
    | 1 => simp [CLASS_MAP]
    | (n + 2) => simp [CLASS_MAP]
  refine ⟨hmap, ?_⟩
  rintro now dets bin ⟨d, hd, h0, h1⟩
  have hnone : CLASS_MAP d.cls = none := (hmap d.cls).mpr ⟨h0, h1⟩
  have hla : lookupAll dets = none := lookupAll_none d hd hnone
  constructor
  · cases dets with
    | nil => exact absurd hd (by simp)
    | cons e ds => rw [analyze_frame, hla]
  · rw [detect_and_draw, hla]
    rfl

theorem c10_witness :
    analyze_frame 0 [⟨2, (1 : ℚ)/2⟩] WasteLabel.dry = none ∧
    detect_and_draw [⟨2, (1 : ℚ)/2⟩] WasteLabel.dry = none :=
  c10_class_map_partial.2 0 _ _
    ⟨⟨2, (1 : ℚ)/2⟩, List.mem_singleton.mpr rfl, by decide, by decide⟩

/-- C4: the conversion emits one line per annotation record; the four
spatial values are exactly (x + bw/2)/w, (y + bh/2)/h, bw/w, bh/h; and the
box (x=10, y=20, w=30, h=40) in a 100 by 200 image is printed as
0.250000 0.200000 0.300000 0.200000 with six decimal digits. -/
theorem c4_coordinate_converter :
    (∀ w h : ℚ, ∀ a : AnnRec, yoloNums w h a =
      { xc := (a.x + a.bw / 2) / w, yc := (a.y + a.bh / 2) / h,
        wn := a.bw / w, hn := a.bh / h }) ∧
    yolo_line 100 200 ⟨3, 10, 20, 30, 40⟩ =
      "3 0.250000 0.200000 0.300000 0.200000" ∧
    (∀ w h : ℚ, ∀ anns : List AnnRec,
      (anns.map (yolo_line w h)).length = anns.length) := by
  refine ⟨fun w h a => rfl, ?_, fun w h anns => List.length_map _ _⟩
  norm_num [yolo_line, yoloNums, fmt6, roundHalfEven, pad6] <;> decide

/-- A manifest of two images both of whose source files are absent. -/
def missing_imgs : List ImgRec :=
  [⟨1, "a.jpg", false, 1, 1⟩, ⟨2, "b.jpg", false, 1, 1⟩]

/-- C9 (counterexample): running the conversion over two missing images
copies nothing, writes no label file in any split, logs one line per
missing image, and the end-of-run summary carries only the copied,
labeled and boxes counters: the count of missing images (2) appears in
no summary entry, so no "missing" counter is reported. -/
theorem c9_counterexample :
    run_conversion (fun _ => []) [] [] missing_imgs =
      { copied := 0, labeled := 0, boxes := 0, copied_files := [],
        label_files := [],
        log_lines := ["Missing image: a.jpg", "Missing image: b.jpg"] } ∧
    2 ∉ (summary (run_conversion (fun _ => []) [] [] missing_imgs)).map
      Prod.snd := by
  constructor
  · rfl
  · decide

/-- C9 (amended): a missing source image is skipped entirely: the only
state change of its loop iteration is one printed "Missing image" line;
the copied files, label files and all three summary counters are exactly
those of the previous state, and the summary block has no missing
counter to advance. -/
theorem c9_amended_missing_skip (anns : Nat → List AnnRec) (tr vl : List Nat)
    (st : ConvState) (img : ImgRec) (h : img.src_exists = false) :
    process_image anns tr vl st img =
      { st with log_lines :=
          st.log_lines ++ ["Missing image: " ++ img.file_name] } ∧
    summary (process_image anns tr vl st img) = summary st := by
  constructor
  · rw [process_image, if_pos h]
  · rw [process_image, if_pos h]
    rfl

theorem c9_witness :
    process_image (fun _ => []) [] [] ⟨0, 0, 0, [], [], []⟩
        ⟨7, "x.jpg", false, 1, 1⟩ =
      { copied := 0, labeled := 0, boxes := 0, copied_files := [],
        label_files := [], log_lines := ["Missing image: x.jpg"] } ∧
    summary (process_image (fun _ => []) [] [] ⟨0, 0, 0, [], [], []⟩
        ⟨7, "x.jpg", false, 1, 1⟩) =
      summary ⟨0, 0, 0, [], [], []⟩ := by
  have h := c9_amended_missing_skip (fun _ => []) [] [] ⟨0, 0, 0, [], [], []⟩
    ⟨7, "x.jpg", false, 1, 1⟩ rfl
  exact ⟨h.1, h.2⟩

/-- C3: over any shuffled order `s` of the distinct input ids, the three
split slices reassemble `s`; as sets they are pairwise disjoint and their
union is the input id set; their sizes are the truncating boundaries
⌊0.8n⌋ and ⌊0.9n⌋−⌊0.8n⌋ and the remainder (Python's int(0.8*n) equals the
rational floor, bridged in the last conjunct); and for n = 100 the sizes
are exactly 80, 10 and 10.  Determinism of a run is the purity of these
functions: the assignment is fully determined by the shuffled order, which
the seeded PRNG fixes from the input set and the seed. -/
theorem c3_split_allocator (ids s : List Nat) (hp : s.Perm ids)
    (hnd : s.Nodup) :
    train_ids s ++ val_ids s ++ test_ids s = s ∧
    (train_ids s).toFinset ∪ (val_ids s).toFinset ∪ (test_ids s).toFinset =
      ids.toFinset ∧
    (train_ids s).Disjoint (val_ids s) ∧
    (train_ids s).Disjoint (test_ids s) ∧
    (val_ids s).Disjoint (test_ids s) ∧
    (train_ids s).length = 8 * ids.length / 10 ∧
    (val_ids s).length = 9 * ids.length / 10 - 8 * ids.length / 10 ∧
    (test_ids s).length = ids.length - 9 * ids.length / 10 ∧
    (ids.length = 100 →
      (train_ids s).length = 80 ∧ (val_ids s).length = 10 ∧
        (test_ids s).length = 10) ∧
    (∀ m : Nat, ⌊(8 : ℚ)/10 * m⌋₊ = 8 * m / 10 ∧
      ⌊(9 : ℚ)/10 * m⌋₊ = 9 * m / 10) := by
  have hlen : s.length = ids.length := hp.length_eq
  have hcat : train_ids s ++ val_ids s ++ test_ids s = s := by
    rw [train_ids, val_ids, test_ids, List.append_assoc]
    have h1 : (s.drop (8 * s.length / 10)).drop
        (9 * s.length / 10 - 8 * s.length / 10) = s.drop (9 * s.length / 10) := by
      rw [List.drop_drop]
      congr 1
      omega
    rw [← h1, List.take_append_drop, List.take_append_drop]
  have hnodup : (train_ids s ++ (val_ids s ++ test_ids s)).Nodup := by
    have hassoc : train_ids s ++ (val_ids s ++ test_ids s) = s := by
      rw [← List.append_assoc]; exact hcat
    rw [hassoc]; exact hnd
  have hsplit := List.nodup_append.mp hnodup
  have hd1 : (train_ids s).Disjoint (val_ids s ++ test_ids s) := hsplit.2.2
  have hd23 : (val_ids s).Disjoint (test_ids s) :=
    (List.nodup_append.mp hsplit.2.1).2.2
  have hdAB : (train_ids s).Disjoint (val_ids s) :=
    fun _ ha hb => hd1 ha (List.mem_append_left _ hb)
  have hdAC : (train_ids s).Disjoint (test_ids s) :=
    fun _ ha hc => hd1 ha (List.mem_append_right _ hc)
  have hu : (train_ids s).toFinset ∪ (val_ids s).toFinset ∪
      (test_ids s).toFinset = ids.toFinset := by
    rw [← List.toFinset_append, ← List.toFinset_append, hcat]
    exact List.toFinset_eq_of_perm _ _ hp
  have hlt : (train_ids s).length = 8 * s.length / 10 := by
    rw [train_ids, List.length_take]
    exact Nat.min_eq_left (by omega)
  have hlv : (val_ids s).length =
      9 * s.length / 10 - 8 * s.length / 10 := by
    rw [val_ids, List.length_take, List.length_drop]
    exact Nat.min_eq_left (by omega)
  have hltst : (test_ids s).length = s.length - 9 * s.length / 10 := by
    rw [test_ids, List.length_drop]
  rw [hlen] at hlt hlv hltst
  refine ⟨hcat, hu, hdAB, hdAC, hd23, hlt, hlv, hltst, ?_, ?_⟩
  · intro h100
    rw [h100] at hlt hlv hltst
    exact ⟨by omega, by omega, by omega⟩
  · intro m
    have h8 : (8 : ℚ)/10 * m = ((8 * m : ℕ) : ℚ) / ((10 : ℕ) : ℚ) := by
      push_cast; ring
    have h9 : (9 : ℚ)/10 * m = ((9 * m : ℕ) : ℚ) / ((10 : ℕ) : ℚ) := by
      push_cast; ring
    constructor
    · rw [h8, Nat.floor_div_nat, Nat.floor_natCast]
    · rw [h9, Nat.floor_div_nat, Nat.floor_natCast]

theorem c3_witness :
    (train_ids (List.range 100)).length = 80 ∧
    (val_ids (List.range 100)).length = 10 ∧
    (test_ids (List.range 100)).length = 10 := by
  have h := c3_split_allocator (List.range 100) (List.range 100)
    (List.Perm.refl _) (List.nodup_range 100)
  exact h.2.2.2.2.2.2.2.2.1 (by simp)
